import Mathlib

/-!
Verification of the `ubuntu-l10n` fetch-cache-aggregate pipeline.

This file gives a shallow embedding of the core logic of
`ubuntu_l10n/scraper.py` (page parsing, cache store, retry/backoff,
pagination, the `fetch_all_packages` orchestration) and of the
aggregation/filter/sort logic of `ubuntu_l10n/app.py`
(`_on_show_stats`, `_filter_and_display`), and proves properties of the
specification against it.

Modelling conventions:
* Python `float` values that only ever hold decimally-written page values
  or wall-clock seconds are modelled as `ℚ` (all arithmetic performed on
  them in the source is exact at these magnitudes).
* Python `int(s)` / `float(s)` string conversions are modelled by
  `pyInt?` / `pyFloat?` below (decimal forms; exponent/inf/nan forms of
  `float()` are not modelled, they do not occur in the scraped pages).
* The BeautifulSoup DOM is modelled by the abstract `Html`/`Row`/`Cell`
  structures carrying exactly the accessors `parse_page` and
  `get_total_count` use.
* I/O (HTTP responses, the cache file, the clock) is passed explicitly;
  observable actions (requests, sleeps, callback invocations) are
  recorded in an event trace.
-/

namespace UbuntuL10n

/-- Strip leading and trailing whitespace from a character list
(Python `str.strip()`). -/
def trimChars (cs : List Char) : List Char :=
  ((cs.dropWhile Char.isWhitespace).reverse.dropWhile
    Char.isWhitespace).reverse

/-- Numeric value of a run of decimal digits. -/
def digitsToNat (ds : List Char) : ℕ :=
  ds.foldl (fun acc c => acc * 10 + (c.toNat - 48)) 0

/-- A nonempty all-digit run parsed to its value, `none` otherwise. -/
def digits? (cs : List Char) : Option ℕ :=
  if cs ≠ [] ∧ cs.all Char.isDigit then some (digitsToNat cs) else none

/-- Model of Python `int(s)`: strip surrounding whitespace, optional
sign, decimal digits.  Returns `none` where `int()` raises `ValueError`. -/
def pyInt? (s : String) : Option ℤ :=
  match trimChars s.data with
  | '+' :: rest => (digits? rest).map Int.ofNat
  | '-' :: rest => (digits? rest).map (fun n => -(n : ℤ))
  | cs => (digits? cs).map Int.ofNat

/-- Decimal-literal body of `pyFloat?`: `digits`, `digits.digits`,
`digits.` or `.digits`. -/
def pyFloatCore (cs : List Char) : Option ℚ :=
  let a := cs.takeWhile (fun c => c ≠ '.')
  match cs.dropWhile (fun c => c ≠ '.') with
  | [] => (digits? a).map (fun n => (n : ℚ))
  | _ :: b =>
    if b.contains '.' then none
    else if a = [] ∧ b = [] then none
    else
      match (if a = [] then some 0 else digits? a),
            (if b = [] then some 0 else digits? b) with
      | some x, some y =>
        some ((x : ℚ) + (y : ℚ) / (10 : ℚ) ^ b.length)
      | _, _ => none

/-- Model of Python `float(s)` on decimal literals: strip surrounding
whitespace, optional sign, then a decimal body.  Returns `none` where
`float()` raises `ValueError`.  (Exponent, `inf` and `nan` forms are not
modelled; they do not occur in the scraped sort keys.) -/
def pyFloat? (s : String) : Option ℚ :=
  match trimChars s.data with
  | '+' :: rest => pyFloatCore rest
  | '-' :: rest => (pyFloatCore rest).map (fun q => -q)
  | cs => pyFloatCore cs

/-- Model of Python `int(q)` on a float/rational: truncation toward zero. -/
def pyTrunc (q : ℚ) : ℤ :=
  if 0 ≤ q then ⌊q⌋ else -⌊-q⌋

/-- Model of Python `str.lower()` (character-wise lowercasing). -/
def pyLower (s : String) : String :=
  ⟨s.data.map Char.toLower⟩

/-- Model of Python `str.strip()`. -/
def pyStrip (s : String) : String :=
  ⟨trimChars s.data⟩

/-- Code-point lexicographic `<` on character lists (Python string
comparison). -/
def charsLt : List Char → List Char → Bool
  | [], [] => false
  | [], _ :: _ => true
  | _ :: _, [] => false
  | a :: as, b :: bs =>
    if a < b then true else if b < a then false else charsLt as bs

/-- Python `a <= b` on strings: code-point lexicographic order. -/
def pyStrLe (a b : String) : Bool :=
  !(charsLt b.data a.data)

/-! ### Abstract DOM

`parse_page` accesses, per table row with an `id` attribute, the list of
`td` cells; per cell: the first anchor (`find("a")`), the texts of its
`span.sortkey` children (`find_all`/`find`), its stripped text, and the
first `time` element.  `get_total_count` accesses the text of the
`td.batch-navigation-index` cell. -/

/-- An anchor element as used by `parse_page`: its stripped text and its
`href` attribute. -/
structure Anchor where
  text : String
  href : String
deriving Repr, DecidableEq, Inhabited

/-- A table cell, carrying exactly what `parse_page` reads from it. -/
structure Cell where
  /-- `cell.find("a")` -/
  anchor : Option Anchor
  /-- stripped texts of `span.sortkey` descendants, in document order -/
  sortkeys : List String
  /-- `cell.get_text(strip=True)` -/
  text : String
  /-- stripped text of `cell.find("time")`, when present -/
  timeText : Option String
deriving Repr, DecidableEq, Inhabited

/-- A row of the `translation-stats` table that carries an `id`
attribute (only those are iterated by `parse_page`). -/
structure Row where
  cells : List Cell
deriving Repr, DecidableEq, Inhabited

/-- A page, as consumed by `parse_page` and `get_total_count`. -/
structure Html where
  /-- rows (with `id`) of `table.translation-stats`; `none` when the
  table is absent -/
  table : Option (List Row)
  /-- text of `td.batch-navigation-index`, when present -/
  navText : Option String
deriving Repr, DecidableEq, Inhabited

/-! ### Data model -/

/-- `PackageStats` dataclass of `scraper.py`. -/
structure PackageStats where
  name : String
  translated_pct : ℚ
  untranslated : ℤ
  need_review : ℤ
  changed : ℤ
  total : ℤ
  last_edited : String
  last_editor : String
  translate_url : String
deriving Repr, DecidableEq, Inhabited

/-- Derived property `PackageStats.translated`. -/
def PackageStats.translated (p : PackageStats) : ℤ :=
  p.total - p.untranslated

/-- Derived property `PackageStats.fuzzy`. -/
def PackageStats.fuzzy (p : PackageStats) : ℤ :=
  p.need_review

/-- The dictionary form produced by `dataclasses.asdict` and stored in
the cache document: same nine fields. -/
structure PackageDict where
  name : String
  translated_pct : ℚ
  untranslated : ℤ
  need_review : ℤ
  changed : ℤ
  total : ℤ
  last_edited : String
  last_editor : String
  translate_url : String
deriving Repr, DecidableEq, Inhabited

/-- `dataclasses.asdict` on one record. -/
def asdict (p : PackageStats) : PackageDict :=
  ⟨p.name, p.translated_pct, p.untranslated, p.need_review, p.changed,
   p.total, p.last_edited, p.last_editor, p.translate_url⟩

/-- `PackageStats(**d)` on one stored dictionary. -/
def ofdict (d : PackageDict) : PackageStats :=
  ⟨d.name, d.translated_pct, d.untranslated, d.need_review, d.changed,
   d.total, d.last_edited, d.last_editor, d.translate_url⟩

/-- `_packages_to_dicts`. -/
def packagesToDicts (ps : List PackageStats) : List PackageDict :=
  ps.map asdict

/-- `_dicts_to_packages`. -/
def dictsToPackages (ds : List PackageDict) : List PackageStats :=
  ds.map ofdict

/-! ### Page parsing (`parse_page`, `get_total_count`) -/

/-- Python exceptions that can escape the modelled code. -/
inductive PyErr where
  /-- `requests.HTTPError` raised by `raise_for_status`, carrying the
  response status -/
  | httpError (status : ℕ)
  /-- `ValueError` escaping `float(...)` in `parse_page` -/
  | valueError
deriving Repr, DecidableEq

/-- The local helper `get_int(cell)` of `parse_page`: first
`span.sortkey` text converted with `int(...)`, `ValueError` caught to 0,
0 when no sortkey span exists. -/
def get_int (cell : Cell) : ℤ :=
  match cell.sortkeys.head? with
  | some t => (pyInt? t).getD 0
  | none => 0

/-- One iteration of the row loop of `parse_page`.
`.ok none` models `continue` (row skipped); `.error` models an uncaught
exception; `.ok (some p)` models `packages.append(p)`. -/
def parseRow (row : Row) : Except PyErr (Option PackageStats) :=
  let cells := row.cells
  if cells.length < 8 then .ok none
  else
    match (cells.getD 0 default).anchor with
    | none => .ok none
    | some link =>
      let name := link.text
      let translate_url := "https://translations.launchpad.net" ++ link.href
      let pctRes : Except PyErr ℚ :=
        match (cells.getD 1 default).sortkeys.head? with
        | some t =>
          match pyFloat? t with
          | some q => .ok q
          | none => .error .valueError
        | none => .ok 0
      match pctRes with
      | .error e => .error e
      | .ok translated_pct =>
        let untranslated := get_int (cells.getD 2 default)
        let need_review := get_int (cells.getD 3 default)
        let changed := get_int (cells.getD 4 default)
        let total := (pyInt? (cells.getD 5 default).text).getD 0
        let last_edited := ((cells.getD 6 default).timeText).getD ""
        let last_editor :=
          (((cells.getD 7 default).anchor).map Anchor.text).getD ""
        .ok (some ⟨name, translated_pct, untranslated, need_review,
                   changed, total, last_edited, last_editor, translate_url⟩)

/-- The row loop of `parse_page`, accumulating appended records and
propagating an uncaught exception. -/
def parseRows : List Row → Except PyErr (List PackageStats)
  | [] => .ok []
  | row :: rest =>
    match parseRow row with
    | .error e => .error e
    | .ok none => parseRows rest
    | .ok (some p) =>
      match parseRows rest with
      | .error e => .error e
      | .ok ps => .ok (p :: ps)

/-- `parse_page(html, distro)`: empty list when the stats table is
absent, otherwise the row loop.  (The `distro` argument is unused in the
source as well.) -/
def parse_page (html : Html) : Except PyErr (List PackageStats) :=
  match html.table with
  | none => .ok []
  | some rows => parseRows rows

/-- After a matched `of`, the regex tail `\s+(\d+)`: at least one
whitespace character followed by a maximal nonempty digit run. -/
def wsDigits? (cs : List Char) : Option ℕ :=
  let ws := cs.takeWhile (fun c => c.isWhitespace)
  let rest := cs.dropWhile (fun c => c.isWhitespace)
  let ds := rest.takeWhile Char.isDigit
  if ws ≠ [] && ds ≠ [] then some (digitsToNat ds) else none

/-- Scanner for `findOfNumber`, carrying the previous character: a
match starts wherever a previous `o` is followed by `f` and `\s+\d+`. -/
def findOfAux (prev : Char) : List Char → Option ℕ
  | c :: rest =>
    if prev = 'o' ∧ c = 'f' then
      match wsDigits? rest with
      | some n => some n
      | none => findOfAux c rest
    else findOfAux c rest
  | [] => none

/-- Model of `re.search(r"of\s+(\d+)", text)` followed by
`int(m.group(1))`: the earliest position where `of` is followed by at
least one whitespace character and then at least one digit, yielding the
maximal digit run there. -/
def findOfNumber (cs : List Char) : Option ℕ :=
  findOfAux ' ' cs

/-- `get_total_count(html)`: the trailing number of the
batch-navigation caption, 0 when the caption or the match is absent. -/
def get_total_count (html : Html) : ℕ :=
  match html.navText with
  | some text => (findOfNumber text.data).getD 0
  | none => 0

/-! ### Cache store (`_cache_key`, `load_cache`, `save_cache`)

The cache file is one JSON object; it is modelled as an association
list.  An absent or unreadable file is `none` (both `load_cache` and
`save_cache` treat any read failure as an empty/absent document). -/

/-- One cache entry: stored record dictionaries plus the
`time.time()` at which they were saved. -/
structure CacheEntry where
  data : List PackageDict
  timestamp : ℚ
deriving Repr, DecidableEq

/-- The parsed cache document. -/
abbrev Cache := List (String × CacheEntry)

/-- `_cache_key(distro, lang)`. -/
def cacheKey (distro lang : String) : String :=
  distro ++ "_" ++ lang

/-- `cache[key] = entry` on a Python dict: replace the binding when the
key is present, append it otherwise. -/
def setKey (c : Cache) (k : String) (v : CacheEntry) : Cache :=
  if c.any (fun p => p.1 = k) then
    c.map (fun p => if p.1 = k then (k, v) else p)
  else c ++ [(k, v)]

/-- `key in cache` / `cache[key]` on the parsed JSON object. -/
def alookup (c : Cache) (k : String) : Option CacheEntry :=
  match c with
  | [] => none
  | (k', v) :: t => if k' = k then some v else alookup t k

/-- `load_cache(distro, lang)` on the given file contents:
`(entry["data"], entry["timestamp"])` when the document parses and holds
the key, the `(None, None)` outcome (here `none`) otherwise. -/
def load_cache (file : Option Cache) (distro lang : String) :
    Option (List PackageDict × ℚ) := do
  let cache ← file
  let e ← alookup cache (cacheKey distro lang)
  pure (e.data, e.timestamp)

/-- `save_cache(distro, lang, data)` at clock reading `now`: read the
existing document (unreadable ⇒ `{}`), merge the new entry under this
pair's key, write back. -/
def save_cache (file : Option Cache) (distro lang : String)
    (data : List PackageDict) (now : ℚ) : Cache :=
  setKey (file.getD []) (cacheKey distro lang) ⟨data, now⟩

/-! ### HTTP fetching (`_request_with_retry`) -/

/-- An HTTP response: status code and (parsed) body. -/
structure Response where
  status : ℕ
  html : Html
deriving Repr, DecidableEq, Inhabited

/-- Observable actions of the modelled code, in order of occurrence. -/
inductive Event where
  /-- `session.get(url, timeout=30)` -/
  | httpGet (url : String)
  /-- `time.sleep(secs)` -/
  | sleep (secs : ℚ)
  /-- `callback(loaded, total)` -/
  | progress (loaded : ℕ) (total : ℕ)
  /-- `cache_cb(packages, age_minutes)` -/
  | cacheHit (pkgs : List PackageStats) (ageMinutes : ℤ)
deriving Repr, DecidableEq

/-- `r.raise_for_status()` raises exactly for 4xx/5xx statuses. -/
def raisesForStatus (status : ℕ) : Bool :=
  400 ≤ status && status < 600

/-- The retry loop of `_request_with_retry`, with `remaining` loop
iterations left and current loop index `attempt` (the loop runs
`attempt` over `range(max_retries)`, so `remaining + attempt =
max_retries` throughout): GET; on 429 sleep `2^(attempt+1)` seconds and
continue; otherwise `raise_for_status` and return.  With no iterations
left, one final unconditional GET whose outcome is surfaced.  `get k` is
the response to the `k`-th GET of this URL. -/
def retryAux (get : ℕ → Response) (url : String) :
    (remaining attempt : ℕ) → Except PyErr Response × List Event
  | 0, attempt =>
    let r := get attempt
    if raisesForStatus r.status then
      (.error (.httpError r.status), [Event.httpGet url])
    else (.ok r, [Event.httpGet url])
  | remaining + 1, attempt =>
    let r := get attempt
    if r.status = 429 then
      let rest := retryAux get url remaining (attempt + 1)
      (rest.1,
       Event.httpGet url :: Event.sleep ((2 ^ (attempt + 1) : ℕ) : ℚ) :: rest.2)
    else if raisesForStatus r.status then
      (.error (.httpError r.status), [Event.httpGet url])
    else (.ok r, [Event.httpGet url])

/-- `_request_with_retry(session, url, max_retries=4)`. -/
def request_with_retry (get : ℕ → Response) (url : String)
    (max_retries : ℕ := 4) : Except PyErr Response × List Event :=
  retryAux get url max_retries 0

/-! ### URL construction and pagination -/

def BASE_URL : String := "https://translations.launchpad.net/ubuntu"

/-- `get_lang_url(distro, lang, batch=300, start=0)`. -/
def get_lang_url (distro lang : String) (batch : ℕ := 300)
    (start : ℕ := 0) : String :=
  let url := BASE_URL ++ "/" ++ distro ++ "/+lang/" ++ lang
    ++ "/+index?batch=" ++ toString batch
  if start > 0 then url ++ "&start=" ++ toString start else url

/-- `REQUEST_DELAY = 0.8` seconds (the rational 4/5, given in lowest
terms so that traces evaluate by kernel reduction). -/
def REQUEST_DELAY : ℚ := ⟨4, 5, by decide, by decide⟩

/-- The environment a fetch runs in: the cache file contents, the clock
reading, and the network (responses per URL, per repeated GET of that
URL). -/
structure World where
  file : Option Cache
  now : ℚ
  net : String → ℕ → Response

set_option maxRecDepth 2000

/-- The `while start < total` page loop of `fetch_all_packages`:
sleep `REQUEST_DELAY`, fetch the page at offset `start`, parse it,
extend the accumulator, advance `start` by the batch size 300, report
progress when a callback was supplied.  An HTTP error or an uncaught
parse exception aborts the loop. -/
def pageLoop (w : World) (distro lang : String) (callback : Bool)
    (total : ℕ) (acc : List PackageStats) (start : ℕ) :
    Except PyErr (List PackageStats) × List Event :=
  if _h : start < total then
    let url := get_lang_url distro lang 300 start
    let (o, revs) := request_with_retry (w.net url) url 4
    let evs := Event.sleep REQUEST_DELAY :: revs
    match o with
    | .error e => (.error e, evs)
    | .ok resp =>
      match parse_page resp.html with
      | .error e => (.error e, evs)
      | .ok pkgs =>
        let acc' := acc ++ pkgs
        let evs' := evs ++ (if callback then
          [Event.progress acc'.length total] else [])
        let rest := pageLoop w distro lang callback total acc' (start + 300)
        (rest.1, evs' ++ rest.2)
  else (.ok acc, [])
termination_by total - start

/-- The fresh-fetch path of `fetch_all_packages`: first page at offset
0, total from that page, remaining pages, then `save_cache` of the full
result.  Any error leaves the cache file untouched. -/
def fetchFresh (w : World) (distro lang : String) (callback : Bool) :
    Except PyErr (List PackageStats) × Option Cache × List Event :=
  let url0 := get_lang_url distro lang 300 0
  let (o0, evs0) := request_with_retry (w.net url0) url0 4
  match o0 with
  | .error e => (.error e, w.file, evs0)
  | .ok resp =>
    let total := get_total_count resp.html
    match parse_page resp.html with
    | .error e => (.error e, w.file, evs0)
    | .ok pkgs =>
      let evs1 := evs0 ++ (if callback then
        [Event.progress pkgs.length total] else [])
      let rest := pageLoop w distro lang callback total pkgs 300
      match rest.1 with
      | .error e => (.error e, w.file, evs1 ++ rest.2)
      | .ok allPkgs =>
        (.ok allPkgs,
         some (save_cache w.file distro lang (packagesToDicts allPkgs) w.now),
         evs1 ++ rest.2)

/-- The cache-consultation prefix of `fetch_all_packages`:
`cached_data and cached_ts` (Python truthiness: nonempty list, nonzero
timestamp) and `age_seconds < 3600` select the cache-hit path, which
yields the reconstructed records and `int(age_seconds / 60)`. -/
def cacheHitResult (file : Option Cache) (distro lang : String)
    (now : ℚ) : Option (List PackageStats × ℤ) :=
  match load_cache file distro lang with
  | some (data, ts) =>
    if data ≠ [] ∧ ts ≠ 0 then
      let age := now - ts
      if age < 3600 then
        some (dictsToPackages data, pyTrunc (age / 60))
      else none
    else none
  | none => none

/-- `fetch_all_packages(distro, lang, callback, cache_cb, force)`.
Returns the result (or the escaped exception), the cache file contents
after the call, and the event trace.  `callback` / `cache_cb` record
whether the respective optional callback was supplied. -/
def fetch_all_packages (w : World) (distro lang : String)
    (callback cache_cb : Bool) (force : Bool) :
    Except PyErr (List PackageStats) × Option Cache × List Event :=
  match (if force then none else cacheHitResult w.file distro lang w.now) with
  | some (pkgs, ageMin) =>
    (.ok pkgs, w.file,
     if cache_cb then [Event.cacheHit pkgs ageMin] else [])
  | none => fetchFresh w distro lang callback

/-! ### Aggregation (`MainWindow._on_show_stats`)

Python's `sorted`/`list.sort` are stable; `reverse=True` yields the
descending order with equal keys kept in original order.  Both are
modelled by `List.mergeSort` (stable) with the corresponding boolean
order. -/

/-- `sum(p.total for p in pkgs)`. -/
def total_strings (pkgs : List PackageStats) : ℤ :=
  (pkgs.map (fun p => p.total)).sum

/-- `sum(p.translated for p in pkgs)`. -/
def total_translated (pkgs : List PackageStats) : ℤ :=
  (pkgs.map (fun p => p.translated)).sum

/-- `(total_translated / total_strings * 100) if total_strings > 0 else 0`. -/
def overall_pct (pkgs : List PackageStats) : ℚ :=
  if 0 < total_strings pkgs then
    (total_translated pkgs : ℚ) / (total_strings pkgs : ℚ) * 100
  else 0

/-- `sum(1 for p in pkgs if p.translated_pct >= 100)`. -/
def fully_translated (pkgs : List PackageStats) : ℕ :=
  pkgs.countP (fun p => decide (100 ≤ p.translated_pct))

/-- `sum(1 for p in pkgs if p.translated_pct == 0)`. -/
def zero_pct (pkgs : List PackageStats) : ℕ :=
  pkgs.countP (fun p => decide (p.translated_pct = 0))

/-- `sorted(pkgs, key=lambda p: p.translated_pct, reverse=True)[:10]` —
note: taken over all packages, with no `total > 0` filter. -/
def top_translated (pkgs : List PackageStats) : List PackageStats :=
  (pkgs.insertionSort (fun a b => b.translated_pct ≤ a.translated_pct)).take 10

/-- `sorted([p for p in pkgs if p.total > 0], key=lambda p: p.translated_pct)[:10]`. -/
def least_translated (pkgs : List PackageStats) : List PackageStats :=
  ((pkgs.filter (fun p => decide (0 < p.total))).insertionSort
    (fun a b => a.translated_pct ≤ b.translated_pct)).take 10

/-! ### Filtering and sorting (`MainWindow._filter_and_display`) -/

/-- The five entries of `self._sort_options`. -/
inductive SortKey where
  | name_asc
  | most_translated
  | least_translated
  | most_strings
  | last_updated
deriving Repr, DecidableEq

/-- The `filtered.sort(...)` dispatch on the selected sort key: a
stable sort (`list.sort` is stable; `reverse=True` gives the descending
order with equal keys left in original order, modelled by the flipped
relation).  (For `last_updated` the key is `p.last_edited or ""`, which
equals `p.last_edited` since the only falsy string is `""` itself.) -/
def applySort (key : SortKey) (l : List PackageStats) : List PackageStats :=
  match key with
  | .name_asc =>
    l.insertionSort (fun a b => pyStrLe (pyLower a.name) (pyLower b.name))
  | .most_translated =>
    l.insertionSort (fun a b => b.translated_pct ≤ a.translated_pct)
  | .least_translated =>
    l.insertionSort (fun a b => a.translated_pct ≤ b.translated_pct)
  | .most_strings =>
    l.insertionSort (fun a b => b.total ≤ a.total)
  | .last_updated =>
    l.insertionSort (fun a b => pyStrLe b.last_edited a.last_edited)

/-- Contiguous-sublist check used to model Python `q in s` on strings. -/
def containsSub (s q : List Char) : Bool :=
  if q.isPrefixOf s then true
  else
    match s with
    | [] => false
    | _ :: t => containsSub t q

/-- Python `q in s` on strings (`q` a substring of `s`). -/
def strContains (s q : String) : Bool :=
  containsSub s.data q.data

/-- `_filter_and_display`: lower-case and strip the query; when it is
nonempty build a fresh filtered list, otherwise alias `self.packages`;
then sort that list *in place*.  The result models
`(self.packages after the call, self.filtered_packages)` — with an
empty query the in-place sort reorders `self.packages` itself. -/
def filter_and_display (packages : List PackageStats) (rawQuery : String)
    (key : SortKey) : List PackageStats × List PackageStats :=
  let query := pyStrip (pyLower rawQuery)
  if query = "" then
    let sorted := applySort key packages
    (sorted, sorted)
  else
    let filtered :=
      packages.filter (fun p => strContains (pyLower p.name) query)
    (packages, applySort key filtered)

/-! ### Concrete sample data (used by witnesses and counterexamples) -/

/-- A cell holding only text. -/
def textCell (t : String) : Cell := ⟨none, [], t, none⟩

/-- A cell whose value sits in a `span.sortkey`. -/
def skCell (t : String) : Cell := ⟨none, [t], "", none⟩

/-- A name cell: linked template name. -/
def nameCell (n h : String) : Cell := ⟨some ⟨n, h⟩, [], n, none⟩

/-- A last-edited cell with a `time` element. -/
def timeCell (t : String) : Cell := ⟨none, [], t, some t⟩

/-- A last-editor cell with a person link. -/
def editorCell (n : String) : Cell := ⟨some ⟨n, "/~" ++ n⟩, [], n, none⟩

/-- A fully well-formed table row. -/
def goodRow (name pct untr nrev chg tot : String) : Row :=
  ⟨[nameCell name ("/" ++ name), skCell pct, skCell untr, skCell nrev,
    skCell chg, textCell tot, timeCell "2026-01-01", editorCell "ed"]⟩

/-- The record `goodRow` parses to, for cross-checking. -/
def goodPkg (name : String) (pct : ℚ) (untr nrev chg tot : ℤ) : PackageStats :=
  ⟨name, pct, untr, nrev, chg, tot, "2026-01-01", "ed",
   "https://translations.launchpad.net/" ++ name⟩

/-- A network on which every GET succeeds immediately: status 200, one
well-formed row per page, total 650 reported on every page. -/
def net650 : String → ℕ → Response := fun _ _ =>
  ⟨200, ⟨some [goodRow "apt" "40" "3" "1" "2" "100"],
         some "1 → 300 of 650 results"⟩⟩

/-- A network on which every GET succeeds with an empty page: no stats
table, no batch-navigation caption (so `total` parses to 0). -/
def netEmpty : String → ℕ → Response := fun _ _ =>
  ⟨200, ⟨none, none⟩⟩

/-! ### Generic helpers -/

instance {ε α : Type _} [DecidableEq ε] [DecidableEq α] :
    DecidableEq (Except ε α) := fun a b =>
  match a, b with
  | .error e, .error f =>
    if h : e = f then isTrue (by simp [h]) else isFalse (by simp [h])
  | .error _, .ok _ => isFalse (by simp)
  | .ok _, .error _ => isFalse (by simp)
  | .ok a, .ok b =>
    if h : a = b then isTrue (by simp [h]) else isFalse (by simp [h])

/-- Rewriting every binding of key `k` in an association list, as the
Python-dict update does on an existing key: effect on lookups. -/
lemma alookup_map_set (t : Cache) (k : String) (v : CacheEntry)
    (k' : String) :
    alookup (t.map (fun p => if p.1 = k then (k, v) else p)) k' =
      if k' = k then
        (if t.any (fun p => decide (p.1 = k)) then some v else none)
      else alookup t k' := by
  induction t with
  | nil => by_cases hk : k' = k <;> simp [alookup, hk]
  | cons a t ih =>
    obtain ⟨a1, a2⟩ := a
    simp only [List.map_cons, List.any_cons]
    by_cases hak : a1 = k
    · rw [if_pos hak]
      by_cases hk : k' = k
      · simp [alookup, hk, hak]
      · simp [alookup, ih, hk, show a1 ≠ k' from fun hc => hk (hc ▸ hak),
          show k ≠ k' from fun hc => hk hc.symm]
    · rw [if_neg hak]
      by_cases hk : k' = k
      · subst hk
        have hd : decide (a1 = k') = false := by simp [hak]
        simp only [alookup, if_neg hak, ih, if_pos rfl, hd, Bool.false_or]
      · by_cases ha' : a1 = k'
        · simp [alookup, ha', hk]
        · simp [alookup, ha', hk, ih]

/-- Lookup distributes over association-list append. -/
lemma alookup_append (c d : Cache) (k' : String) :
    alookup (c ++ d) k' =
      match alookup c k' with
      | some v => some v
      | none => alookup d k' := by
  induction c with
  | nil => simp [alookup]
  | cons a t ih =>
    obtain ⟨a1, a2⟩ := a
    by_cases ha : a1 = k'
    · simp [alookup, ha]
    · simp [alookup, ha, ih]

/-- A key absent from an association list looks up to `none`. -/
lemma alookup_eq_none_of_not_any (c : Cache) (k : String)
    (h : c.any (fun p => decide (p.1 = k)) = false) :
    alookup c k = none := by
  induction c with
  | nil => rfl
  | cons a t ih =>
    obtain ⟨a1, a2⟩ := a
    simp only [List.any_cons, Bool.or_eq_false_iff, decide_eq_false_iff_not]
      at h
    simp [alookup, h.1, ih h.2]

/-- Looking up the key just set by `setKey` yields the new entry. -/
lemma alookup_setKey_self (c : Cache) (k : String) (v : CacheEntry) :
    alookup (setKey c k v) k = some v := by
  unfold setKey
  split
  · rename_i hany
    rw [alookup_map_set, if_pos rfl, if_pos hany]
  · rename_i hany
    rw [alookup_append, alookup_eq_none_of_not_any c k
      ((Bool.eq_false_or_eq_true _).resolve_left hany)]
    simp [alookup]

/-- `setKey` leaves every other key's binding unchanged. -/
lemma alookup_setKey_other (c : Cache) (k : String) (v : CacheEntry)
    (k' : String) (h : k' ≠ k) :
    alookup (setKey c k v) k' = alookup c k' := by
  unfold setKey
  split
  · rw [alookup_map_set, if_neg h]
  · rw [alookup_append]
    cases hc : alookup c k' with
    | some w => rfl
    | none =>
      simp only [alookup,
        if_neg (show ¬k = k' from fun hc => h hc.symm)]

/-- Converting a record to its stored dictionary and back is the
identity, field for field. -/
lemma ofdict_asdict (p : PackageStats) : ofdict (asdict p) = p := rfl

/-- List version of `ofdict_asdict`. -/
lemma dictsToPackages_packagesToDicts (ps : List PackageStats) :
    dictsToPackages (packagesToDicts ps) = ps := by
  simp [dictsToPackages, packagesToDicts, List.map_map,
    Function.comp_def, ofdict_asdict]

/-! ### Claim C5 — the `translated` invariant -/

/-- A row whose untranslated sortkey (50) exceeds its total cell (10);
`parse_page` accepts it unchecked. -/
def c5row : Row := goodRow "apt" "40" "50" "0" "0" "10"

/-- The record `c5row` parses to. -/
def c5pkg : PackageStats := goodPkg "apt" 40 50 0 0 10

/-- C5, counterexample: `parse_page` happily produces a record with
`untranslated = 50 > 10 = total`, whose derived `translated` is `-40`,
violating `0 ≤ translated`. -/
theorem c5_counterexample :
    parse_page ⟨some [c5row], none⟩ = .ok [c5pkg] ∧
    c5pkg.translated = -40 ∧ ¬(0 ≤ c5pkg.translated) := by
  refine ⟨by decide, by decide, by decide⟩

/-- C5 (amended): for every `PackageStats` record,
`translated + untranslated = total` holds unconditionally, and whenever
the parsed cells satisfy `0 ≤ untranslated ≤ total` the derived value
satisfies `0 ≤ translated ≤ total`. -/
theorem c5_translated_invariant (p : PackageStats) :
    p.translated + p.untranslated = p.total ∧
    (0 ≤ p.untranslated → p.untranslated ≤ p.total →
      0 ≤ p.translated ∧ p.translated ≤ p.total) := by
  unfold PackageStats.translated
  exact ⟨by ring, fun h1 h2 => ⟨by omega, by omega⟩⟩

/-- Witness for C5's amended theorem at a concrete record. -/
theorem c5_translated_invariant_witness :
    (goodPkg "apt" 40 3 1 2 100).translated +
        (goodPkg "apt" 40 3 1 2 100).untranslated =
      (goodPkg "apt" 40 3 1 2 100).total ∧
    0 ≤ (goodPkg "apt" 40 3 1 2 100).translated ∧
    (goodPkg "apt" 40 3 1 2 100).translated ≤
      (goodPkg "apt" 40 3 1 2 100).total := by
  have h := c5_translated_invariant (goodPkg "apt" 40 3 1 2 100)
  exact ⟨h.1, h.2 (by decide) (by decide)⟩

/-! ### Claim C6 — cache round-trip and isolation -/

/-- C6: saving under `(distro, lang)` and immediately loading the same
key returns the saved records (which convert back to the original
records field for field) with the saving timestamp (hence age 0), and
every other composite key's binding is untouched (the document is
merged, not overwritten). -/
theorem c6_save_load (file : Option Cache) (distro lang : String)
    (recs : List PackageStats) (now : ℚ) (d' l' : String) :
    load_cache (some (save_cache file distro lang (packagesToDicts recs) now))
        distro lang = some (packagesToDicts recs, now) ∧
    dictsToPackages (packagesToDicts recs) = recs ∧
    (cacheKey d' l' ≠ cacheKey distro lang →
      load_cache (some (save_cache file distro lang (packagesToDicts recs) now))
          d' l' = load_cache file d' l') := by
  refine ⟨?_, dictsToPackages_packagesToDicts recs, ?_⟩
  · simp [load_cache, save_cache, alookup_setKey_self, Option.bind]
  · intro hne
    cases file with
    | none =>
      simp [load_cache, save_cache, setKey, alookup, Option.bind,
        show ¬(cacheKey distro lang = cacheKey d' l') from
          fun hc => hne hc.symm]
    | some c =>
      simp [load_cache, save_cache, alookup_setKey_other _ _ _ _ hne,
        Option.bind]

/-- Sample record list `X` for the C6 witness. -/
def c6X : List PackageStats := [goodPkg "apt" 40 3 1 2 100]

/-- Sample record list `Y` for the C6 witness. -/
def c6Y : List PackageStats := [goodPkg "bash" 90 1 0 0 50]

/-- Witness for C6: after `save("noble","sv",X)` then
`save("noble","de",Y)`, `load("noble","sv")` still returns `X`. -/
theorem c6_save_load_witness :
    cacheKey "noble" "de" ≠ cacheKey "noble" "sv" ∧
    load_cache
        (some (save_cache
          (some (save_cache none "noble" "sv" (packagesToDicts c6X) 100))
          "noble" "de" (packagesToDicts c6Y) 200))
        "noble" "sv" = some (packagesToDicts c6X, 100) ∧
    dictsToPackages (packagesToDicts c6X) = c6X := by
  have h2 := c6_save_load
    (some (save_cache none "noble" "sv" (packagesToDicts c6X) 100))
    "noble" "de" c6Y 200 "noble" "sv"
  have h1 := c6_save_load none "noble" "sv" c6X 100 "noble" "sv"
  exact ⟨by decide, (h2.2.2 (by decide)).trans h1.1, h1.2.1⟩

/-! ### Event-trace observers -/

/-- The URL of a request event. -/
def httpGetUrl? : Event → Option String
  | .httpGet u => some u
  | _ => none

/-- The slept duration of a sleep event. -/
def sleepSecs? : Event → Option ℚ
  | .sleep q => some q
  | _ => none

/-- The loaded count reported by a progress-callback event. -/
def progressLoaded? : Event → Option ℕ
  | .progress l _ => some l
  | _ => none

/-- Whether an event is a cache-callback invocation. -/
def isCacheHitEv : Event → Bool
  | .cacheHit _ _ => true
  | _ => false

/-- URLs requested, in order. -/
def fetchUrls (trace : List Event) : List String :=
  trace.filterMap httpGetUrl?

/-- Progress-callback loaded counts, in order. -/
def progressLoads (trace : List Event) : List ℕ :=
  trace.filterMap progressLoaded?

/-! ### Claim C2 — retry/backoff behaviour -/

/-- `r.raise_for_status(); return r` as a single outcome. -/
def responseOutcome (r : Response) : Except PyErr Response :=
  if raisesForStatus r.status then .error (.httpError r.status) else .ok r

/-- The trace of a retry sequence that saw `k` rate-limited responses
and then stopped retrying: `k` GET/sleep pairs with sleeps
`2, 4, 8, …, 2^k` seconds, then one last GET. -/
def retryTrace (url : String) (k : ℕ) : List Event :=
  (List.range k).flatMap
    (fun i => [Event.httpGet url, Event.sleep ((2 ^ (i + 1) : ℕ) : ℚ)])
    ++ [Event.httpGet url]

/-- C2: with the default budget of 4 retried attempts, (a) if the first
4 responses are all 429, each triggers a sleep of `2^(attempt+1)`
seconds (2, 4, 8, 16) and one final unconditional attempt is made whose
outcome — success or raised error — is surfaced; (b) if attempt `k < 4`
is the first non-429 response, its outcome is surfaced immediately (an
error status raises with no further attempts), after exactly the `k`
backoff sleeps already incurred. -/
theorem c2_retry_backoff (get : ℕ → Response) (url : String) :
    ((∀ i, i < 4 → (get i).status = 429) →
      request_with_retry get url 4 = (responseOutcome (get 4), retryTrace url 4)) ∧
    (∀ k, k < 4 → (∀ i, i < k → (get i).status = 429) →
      (get k).status ≠ 429 →
      request_with_retry get url 4 = (responseOutcome (get k), retryTrace url k)) := by
  constructor
  · intro h
    have h0 := h 0 (by omega)
    have h1 := h 1 (by omega)
    have h2 := h 2 (by omega)
    have h3 := h 3 (by omega)
    simp only [request_with_retry, retryAux, h0, h1, h2, h3, responseOutcome,
      retryTrace, List.range_succ]
    norm_num
    split_ifs <;> norm_num
  · intro k hk h429 hne
    interval_cases k
    · simp only [request_with_retry, retryAux, hne, responseOutcome,
        retryTrace, List.range_succ]
      norm_num
      split_ifs <;> norm_num
    · have h0 := h429 0 (by omega)
      simp only [request_with_retry, retryAux, h0, hne, responseOutcome,
        retryTrace, List.range_succ]
      norm_num
      split_ifs <;> norm_num
    · have h0 := h429 0 (by omega)
      have h1 := h429 1 (by omega)
      simp only [request_with_retry, retryAux, h0, h1, hne, responseOutcome,
        retryTrace, List.range_succ]
      norm_num
      split_ifs <;> norm_num
    · have h0 := h429 0 (by omega)
      have h1 := h429 1 (by omega)
      have h2 := h429 2 (by omega)
      simp only [request_with_retry, retryAux, h0, h1, h2, hne, responseOutcome,
        retryTrace, List.range_succ]
      norm_num
      split_ifs <;> norm_num

/-- A source that answers 429 to the first two GETs and 200 afterwards. -/
def demoGet429 : ℕ → Response := fun k =>
  if k < 2 then ⟨429, ⟨none, none⟩⟩ else ⟨200, ⟨none, none⟩⟩

/-- Witness for C2: 429 twice then 200 succeeds after sleeping exactly
2 s then 4 s, within the retry budget (3 GETs in total). -/
theorem c2_retry_backoff_witness :
    request_with_retry demoGet429 "u" 4 =
      (.ok ⟨200, ⟨none, none⟩⟩,
       [.httpGet "u", .sleep 2, .httpGet "u", .sleep 4, .httpGet "u"]) := by
  have h := (c2_retry_backoff demoGet429 "u").2 2 (by omega)
    (fun i hi => by
      match i, hi with
      | 0, _ => rfl
      | 1, _ => rfl)
    (by decide)
  exact h.trans (by decide)

/-! ### Claim C4 — parse robustness -/

/-- A row is out of reach of the uncaught `float(...)` conversion: it is
skipped (fewer than 8 cells, or no linked name), or its
translated-percent cell has no sortkey span, or that span's text parses
as a float. -/
def rowPctSafe (row : Row) : Bool :=
  decide (row.cells.length < 8) ||
  (row.cells.getD 0 default).anchor.isNone ||
  (match (row.cells.getD 1 default).sortkeys.head? with
   | some t => (pyFloat? t).isSome
   | none => true)

/-- The total row extraction the specification describes: skip a row
with fewer than 8 data cells or without a linked name; default every
missing or unparseable numeric cell to 0. -/
def extractRow? (row : Row) : Option PackageStats :=
  let cells := row.cells
  if cells.length < 8 then none
  else
    match (cells.getD 0 default).anchor with
    | none => none
    | some link =>
      some ⟨link.text,
        ((((cells.getD 1 default).sortkeys.head?).bind pyFloat?).getD 0),
        get_int (cells.getD 2 default),
        get_int (cells.getD 3 default),
        get_int (cells.getD 4 default),
        (pyInt? (cells.getD 5 default).text).getD 0,
        ((cells.getD 6 default).timeText).getD "",
        (((cells.getD 7 default).anchor).map Anchor.text).getD "",
        "https://translations.launchpad.net" ++ link.href⟩

/-- On a safe row the loop body appends exactly the spec's extraction. -/
lemma parseRow_eq_extractRow (row : Row) (h : rowPctSafe row = true) :
    parseRow row = .ok (extractRow? row) := by
  unfold parseRow extractRow?
  by_cases h8 : row.cells.length < 8
  · simp [h8]
  · rw [if_neg h8, if_neg h8]
    cases ha : (row.cells.getD 0 default).anchor with
    | none => rfl
    | some link =>
      cases hsk : (row.cells.getD 1 default).sortkeys.head? with
      | none => simp [hsk]
      | some t =>
        cases hf : pyFloat? t with
        | some q => simp [hsk, hf]
        | none =>
          exfalso
          simp only [rowPctSafe, Bool.or_eq_true, decide_eq_true_eq] at h
          rcases h with (h | h) | h2
          · exact h8 h
          · rw [ha] at h
            simp at h
          · rw [hsk] at h2
            simp [hf] at h2

/-- A full page whose rows all avoid the unsafe percent cell parses to
exactly the well-formed rows' records. -/
lemma parseRows_eq_filterMap (rows : List Row)
    (h : ∀ r ∈ rows, rowPctSafe r = true) :
    parseRows rows = .ok (rows.filterMap extractRow?) := by
  induction rows with
  | nil => rfl
  | cons r rest ih =>
    have hr := parseRow_eq_extractRow r (h r (by simp))
    have hrest := ih (fun x hx => h x (by simp [hx]))
    cases he : extractRow? r with
    | none => simp [parseRows, hr, he, hrest]
    | some p => simp [parseRows, hr, he, hrest]

/-- A row whose translated-percent sortkey text (`"abc"`) is not a
float literal. -/
def c4row : Row := goodRow "apt" "abc" "3" "1" "2" "100"

/-- C4, counterexample: `parse_page` is *not* total — a present but
unparseable translated-percent sortkey makes `float(...)` raise a
`ValueError` that escapes `parse_page` (it is not caught, unlike the
integer cells), failing the whole page. -/
theorem c4_counterexample :
    parse_page ⟨some [c4row], none⟩ = .error .valueError := by decide

/-- C4 (amended): as long as no row has a present-but-unparseable
translated-percent sortkey, `parse_page` never throws: a row with fewer
than 8 data cells or without a linked name is silently skipped, and
missing sortkey spans or unparseable untranslated / need-review /
changed / total cells default to 0, so the page yields exactly the
records of its well-formed rows. -/
theorem c4_parse_robust (html : Html)
    (h : ∀ r ∈ html.table.getD [], rowPctSafe r = true) :
    parse_page html = .ok ((html.table.getD []).filterMap extractRow?) := by
  cases ht : html.table with
  | none => simp [parse_page, ht]
  | some rows =>
    rw [ht] at h
    simp only [parse_page, ht, Option.getD_some] at h ⊢
    exact parseRows_eq_filterMap rows h

/-- A malformed-page witness input: a 2-cell row, a row with no linked
name, a well-formed row with every numeric cell missing or unparseable,
and a fully well-formed row. -/
def c4page : Html :=
  ⟨some [⟨[textCell "x", textCell "y"]⟩,
         ⟨[textCell "nolink", skCell "40", skCell "3", skCell "1",
           skCell "2", textCell "100", timeCell "t", editorCell "ed"]⟩,
         ⟨[nameCell "weird" "/weird", ⟨none, [], "", none⟩, skCell "zz",
           ⟨none, [], "", none⟩, skCell "-", textCell "n/a",
           ⟨none, [], "", none⟩, textCell "nobody"]⟩,
         goodRow "apt" "40" "3" "1" "2" "100"], none⟩

/-- Witness for C4's amended theorem: the partially malformed `c4page`
parses without error to the records of its two rowed-with-name rows,
with the malformed numeric cells of `"weird"` defaulted to 0. -/
theorem c4_parse_robust_witness :
    parse_page c4page =
      .ok [⟨"weird", 0, 0, 0, 0, 0, "", "",
            "https://translations.launchpad.net/weird"⟩,
           goodPkg "apt" 40 3 1 2 100] := by
  have h := c4_parse_robust c4page (by decide)
  exact h.trans (by decide)

/-! ### Trace lemmas for the fresh-fetch path -/

/-- Step induction along the `offset += 300` loop variable. -/
lemma nat_step_induction (total step : ℕ) (hstep : 0 < step) (P : ℕ → Prop)
    (h : ∀ s, (s < total → P (s + step)) → P s) : ∀ s, P s := by
  have key : ∀ n s, total - s ≤ n → P s := by
    intro n
    induction n with
    | zero => exact fun s hs => h s (fun hlt => absurd hlt (by omega))
    | succ n ih => exact fun s hs => h s (fun hlt => ih (s + step) (by omega))
  exact fun s => key (total - s) s le_rfl

/-- Every retry trace starts with the GET of its URL. -/
lemma retryAux_trace_cons (get : ℕ → Response) (url : String) :
    ∀ rem att, ∃ t,
      (retryAux get url rem att).2 = Event.httpGet url :: t := by
  intro rem att
  cases rem with
  | zero =>
    by_cases hs : raisesForStatus (get att).status <;>
      simp [retryAux, hs]
  | succ rem =>
    by_cases h429 : (get att).status = 429
    · exact ⟨Event.sleep ((2 ^ (att + 1) : ℕ) : ℚ) ::
        (retryAux get url rem (att + 1)).2, by simp [retryAux, h429]⟩
    · by_cases hs : raisesForStatus (get att).status <;>
        simp [retryAux, h429, hs]

/-- A retry trace holds only GETs and sleeps — never a cache callback
and never a progress callback. -/
lemma retryAux_events (get : ℕ → Response) (url : String) :
    ∀ rem att, ∀ e ∈ (retryAux get url rem att).2,
      isCacheHitEv e = false ∧ progressLoaded? e = none := by
  intro rem
  induction rem with
  | zero =>
    intro att e he
    by_cases hs : raisesForStatus (get att).status <;>
      simp [retryAux, hs] at he <;> simp [he, isCacheHitEv, progressLoaded?]
  | succ rem ih =>
    intro att e he
    by_cases h429 : (get att).status = 429
    · simp only [retryAux, h429, if_true, List.mem_cons] at he
      rcases he with he | he | he
      · simp [he, isCacheHitEv, progressLoaded?]
      · simp [he, isCacheHitEv, progressLoaded?]
      · exact ih (att + 1) e he
    · by_cases hs : raisesForStatus (get att).status <;>
        simp [retryAux, h429, hs] at he <;>
        simp [he, isCacheHitEv, progressLoaded?]

/-- No event of the page loop is a cache-callback invocation. -/
lemma pageLoop_no_cacheHit (w : World) (d l : String) (cb : Bool)
    (total : ℕ) :
    ∀ start acc, ∀ e ∈ (pageLoop w d l cb total acc start).2,
      isCacheHitEv e = false := by
  refine nat_step_induction total 300 (by omega)
    (fun start => ∀ acc, ∀ e ∈ (pageLoop w d l cb total acc start).2,
      isCacheHitEv e = false) ?_
  intro s ih acc e he
  by_cases hs : s < total
  · rcases hr : request_with_retry (w.net (get_lang_url d l 300 s))
        (get_lang_url d l 300 s) 4 with ⟨o, revs⟩
    rw [pageLoop, dif_pos hs] at he
    simp only [hr] at he
    have hrevs : ∀ x ∈ revs, isCacheHitEv x = false := by
      intro x hx
      have : x ∈ (request_with_retry (w.net (get_lang_url d l 300 s))
          (get_lang_url d l 300 s) 4).2 := by rw [hr]; exact hx
      exact (retryAux_events _ _ 4 0 x this).1
    cases o with
    | error err =>
      simp only [List.mem_cons] at he
      rcases he with he | he
      · simp [he, isCacheHitEv]
      · exact hrevs e he
    | ok resp =>
      cases hp : parse_page resp.html with
      | error err =>
        simp only [hp, List.mem_cons] at he
        rcases he with he | he
        · simp [he, isCacheHitEv]
        · exact hrevs e he
      | ok pkgs =>
        cases cb with
        | false =>
          simp only [hp, Bool.false_eq_true, if_false, List.append_nil,
            List.mem_append, List.mem_cons] at he
          rcases he with (he | he) | he
          · simp [he, isCacheHitEv]
          · exact hrevs e he
          · exact ih hs (acc ++ pkgs) e he
        | true =>
          simp only [hp, if_true, List.mem_append, List.mem_cons,
            List.mem_singleton, List.not_mem_nil, or_false,
            or_assoc] at he
          rcases he with he | he | he | he
          · simp [he, isCacheHitEv]
          · exact hrevs e he
          · simp [he, isCacheHitEv]
          · exact ih hs (acc ++ pkgs) e he
  · rw [pageLoop, dif_neg hs] at he
    simp at he

/-- The fresh-fetch path always begins with the GET of the first page's
URL. -/
lemma fetchFresh_trace_cons (w : World) (d l : String) (cb : Bool) :
    ∃ t, (fetchFresh w d l cb).2.2 =
      Event.httpGet (get_lang_url d l 300 0) :: t := by
  obtain ⟨t0, ht0⟩ := retryAux_trace_cons (w.net (get_lang_url d l 300 0))
    (get_lang_url d l 300 0) 4 0
  rcases hr : request_with_retry (w.net (get_lang_url d l 300 0))
      (get_lang_url d l 300 0) 4 with ⟨o, evs0⟩
  have hevs : evs0 = Event.httpGet (get_lang_url d l 300 0) :: t0 := by
    have h2 : (request_with_retry (w.net (get_lang_url d l 300 0))
        (get_lang_url d l 300 0) 4).2 = evs0 := by rw [hr]
    rw [← h2]
    exact ht0
  unfold fetchFresh
  simp only [hr]
  cases o with
  | error err => exact ⟨t0, by simp [hevs]⟩
  | ok resp =>
    cases hp : parse_page resp.html with
    | error err => exact ⟨t0, by simp [hp, hevs]⟩
    | ok pkgs =>
      cases hpl : (pageLoop w d l cb (get_total_count resp.html)
          pkgs 300).1 with
      | error err =>
        refine ⟨t0 ++ ((if cb then
          [Event.progress pkgs.length (get_total_count resp.html)]
          else []) ++
          (pageLoop w d l cb (get_total_count resp.html) pkgs 300).2), ?_⟩
        simp [hp, hpl, hevs]
      | ok allPkgs =>
        refine ⟨t0 ++ ((if cb then
          [Event.progress pkgs.length (get_total_count resp.html)]
          else []) ++
          (pageLoop w d l cb (get_total_count resp.html) pkgs 300).2), ?_⟩
        simp [hp, hpl, hevs]

/-- The fresh-fetch path never invokes the cache callback. -/
lemma fetchFresh_no_cacheHit (w : World) (d l : String) (cb : Bool) :
    ∀ e ∈ (fetchFresh w d l cb).2.2, isCacheHitEv e = false := by
  intro e he
  rcases hr : request_with_retry (w.net (get_lang_url d l 300 0))
      (get_lang_url d l 300 0) 4 with ⟨o, evs0⟩
  have hevs : ∀ x ∈ evs0, isCacheHitEv x = false := by
    intro x hx
    have : x ∈ (request_with_retry (w.net (get_lang_url d l 300 0))
        (get_lang_url d l 300 0) 4).2 := by rw [hr]; exact hx
    exact (retryAux_events _ _ 4 0 x this).1
  unfold fetchFresh at he
  simp only [hr] at he
  cases o with
  | error err => exact hevs e he
  | ok resp =>
    cases hp : parse_page resp.html with
    | error err =>
      simp only [hp] at he
      exact hevs e he
    | ok pkgs =>
      cases cb with
      | false =>
        cases hpl : (pageLoop w d l false (get_total_count resp.html)
            pkgs 300).1 with
        | error err =>
          simp only [hp, hpl, Bool.false_eq_true, if_false,
            List.append_nil, List.mem_append] at he
          rcases he with he | he
          · exact hevs e he
          · exact pageLoop_no_cacheHit w d l false
              (get_total_count resp.html) 300 pkgs e he
        | ok allPkgs =>
          simp only [hp, hpl, Bool.false_eq_true, if_false,
            List.append_nil, List.mem_append] at he
          rcases he with he | he
          · exact hevs e he
          · exact pageLoop_no_cacheHit w d l false
              (get_total_count resp.html) 300 pkgs e he
      | true =>
        cases hpl : (pageLoop w d l true (get_total_count resp.html)
            pkgs 300).1 with
        | error err =>
          simp only [hp, hpl, if_true, List.mem_append,
            List.mem_singleton, or_assoc] at he
          rcases he with he | he | he
          · exact hevs e he
          · simp [he, isCacheHitEv]
          · exact pageLoop_no_cacheHit w d l true
              (get_total_count resp.html) 300 pkgs e he
        | ok allPkgs =>
          simp only [hp, hpl, if_true, List.mem_append,
            List.mem_singleton, or_assoc] at he
          rcases he with he | he | he
          · exact hevs e he
          · simp [he, isCacheHitEv]
          · exact pageLoop_no_cacheHit w d l true
              (get_total_count resp.html) 300 pkgs e he

/-! ### Claim C1 — the cache-hit path -/

/-- C1 (amended): when the cached entry for `(distro, lang)` has a
*nonempty* record list and a *nonzero* timestamp (Python truthiness of
`cached_data and cached_ts`), then with `force=false`: if its age is
under 3600 s the call invokes the cache callback with the reconstructed
records and the truncated whole-minute age and returns them, touching
neither the network nor the cache file; if its age is 3600 s or more,
the call proceeds to a fresh network fetch (its first event is the GET
of the offset-0 page URL) and the cache callback is never invoked. -/
theorem c1_cache_hit (w : World) (distro lang : String) (cb : Bool)
    (data : List PackageDict) (ts : ℚ)
    (hload : load_cache w.file distro lang = some (data, ts))
    (hdata : data ≠ []) (hts : ts ≠ 0) :
    (w.now - ts < 3600 →
      fetch_all_packages w distro lang cb true false =
        (.ok (dictsToPackages data), w.file,
         [Event.cacheHit (dictsToPackages data)
           (pyTrunc ((w.now - ts) / 60))])) ∧
    (¬(w.now - ts < 3600) →
      (∃ t, (fetch_all_packages w distro lang cb true false).2.2 =
        Event.httpGet (get_lang_url distro lang 300 0) :: t) ∧
      ∀ e ∈ (fetch_all_packages w distro lang cb true false).2.2,
        isCacheHitEv e = false) := by
  constructor
  · intro hage
    have hch : cacheHitResult w.file distro lang w.now =
        some (dictsToPackages data, pyTrunc ((w.now - ts) / 60)) := by
      simp only [cacheHitResult, hload,
        if_pos (And.intro hdata hts), if_pos hage]
    simp [fetch_all_packages, hch]
  · intro hage
    have hch : cacheHitResult w.file distro lang w.now = none := by
      simp only [cacheHitResult, hload,
        if_pos (And.intro hdata hts), if_neg hage]
    have heq : fetch_all_packages w distro lang cb true false =
        fetchFresh w distro lang cb := by
      simp [fetch_all_packages, hch]
    rw [heq]
    exact ⟨fetchFresh_trace_cons w distro lang cb,
      fetchFresh_no_cacheHit w distro lang cb⟩

/-- Witness for C1's amended theorem: an entry of age 0 with one record
is served from the cache, emitting exactly one cache-callback event. -/
theorem c1_cache_hit_witness :
    fetch_all_packages
        ⟨some [("noble_sv", ⟨packagesToDicts c6X, 1800⟩)], 1800, netEmpty⟩
        "noble" "sv" true true false =
      (.ok (dictsToPackages (packagesToDicts c6X)),
       some [("noble_sv", ⟨packagesToDicts c6X, 1800⟩)],
       [Event.cacheHit (dictsToPackages (packagesToDicts c6X))
         (pyTrunc (((1800 : ℚ) - 1800) / 60))]) := by
  exact (c1_cache_hit
    ⟨some [("noble_sv", ⟨packagesToDicts c6X, 1800⟩)], 1800, netEmpty⟩
    "noble" "sv" true (packagesToDicts c6X) 1800
    (by decide) (by decide) (by decide)).1
    (by rw [sub_self]; decide)

/-- C1, counterexample to the claim as stated: an entry whose age is
under 3600 s is *not* reused when its record list is empty (first pair:
age 0) or when its timestamp is 0 (second pair: age 100 s) — both are
falsy in `if cached_data and cached_ts`, so the code issues a network
request and never invokes the cache callback. -/
theorem c1_counterexample :
    ((fetch_all_packages ⟨some [("noble_sv", ⟨[], 1800⟩)], 1800, netEmpty⟩
        "noble" "sv" true true false).2.2 =
      [Event.httpGet (get_lang_url "noble" "sv" 300 0),
       Event.progress 0 0]) ∧
    ((1800 : ℚ) - 1800 < 3600) ∧
    ((fetch_all_packages
        ⟨some [("noble_sv", ⟨packagesToDicts c6X, 0⟩)], 100, netEmpty⟩
        "noble" "sv" true true false).2.2 =
      [Event.httpGet (get_lang_url "noble" "sv" 300 0),
       Event.progress 0 0]) ∧
    ((100 : ℚ) - 0 < 3600) := by
  refine ⟨?_, by rw [sub_self]; decide, ?_, by rw [sub_zero]; decide⟩ <;>
    simp [fetch_all_packages, cacheHitResult, load_cache, alookup,
      cacheKey, fetchFresh, request_with_retry, retryAux, netEmpty,
      raisesForStatus, parse_page, get_total_count, pageLoop,
      findOfNumber, findOfAux]

/-! ### Claim C10 — empty cached record list behaves as absent -/

/-- C10: a cached entry holding an *empty* record list is treated
exactly like an absent entry — regardless of its age, `force=false`
proceeds to the fresh network fetch (first event: the GET of the
offset-0 page), and the cache callback is never invoked. -/
theorem c10_empty_entry (w : World) (distro lang : String)
    (cb ccb : Bool) (ts : ℚ)
    (hload : load_cache w.file distro lang = some ([], ts)) :
    fetch_all_packages w distro lang cb ccb false =
      fetchFresh w distro lang cb ∧
    (∃ t, (fetch_all_packages w distro lang cb ccb false).2.2 =
      Event.httpGet (get_lang_url distro lang 300 0) :: t) ∧
    ∀ e ∈ (fetch_all_packages w distro lang cb ccb false).2.2,
      isCacheHitEv e = false := by
  have hch : cacheHitResult w.file distro lang w.now = none := by
    simp [cacheHitResult, hload]
  have heq : fetch_all_packages w distro lang cb ccb false =
      fetchFresh w distro lang cb := by
    simp [fetch_all_packages, hch]
  refine ⟨heq, ?_, ?_⟩ <;> rw [heq]
  · exact fetchFresh_trace_cons w distro lang cb
  · exact fetchFresh_no_cacheHit w distro lang cb

/-- Witness for C10 at a concrete world: an empty entry of age 0. -/
theorem c10_empty_entry_witness :
    fetch_all_packages ⟨some [("questing_da", ⟨[], 500⟩)], 500, netEmpty⟩
        "questing" "da" true true false =
      fetchFresh ⟨some [("questing_da", ⟨[], 500⟩)], 500, netEmpty⟩
        "questing" "da" true ∧
    (∃ t, (fetch_all_packages
        ⟨some [("questing_da", ⟨[], 500⟩)], 500, netEmpty⟩
        "questing" "da" true true false).2.2 =
      Event.httpGet (get_lang_url "questing" "da" 300 0) :: t) ∧
    ∀ e ∈ (fetch_all_packages
        ⟨some [("questing_da", ⟨[], 500⟩)], 500, netEmpty⟩
        "questing" "da" true true false).2.2,
      isCacheHitEv e = false := by
  exact c10_empty_entry ⟨some [("questing_da", ⟨[], 500⟩)], 500, netEmpty⟩
    "questing" "da" true true 500 (by decide)

/-! ### Claim C7 — persistence on the fresh-fetch path -/

/-- C7: on the fresh-fetch path (forced, or no valid cache hit), a
successful `fetch_all_packages` always writes the complete result to
the cache file before returning it — even when `force` was set — while
any page-request or parse error propagates with the cache file left
exactly as it was (no partial result is cached). -/
theorem c7_persist (w : World) (distro lang : String)
    (cb ccb force : Bool)
    (hfresh : force = true ∨
      cacheHitResult w.file distro lang w.now = none) :
    (∀ pkgs, (fetch_all_packages w distro lang cb ccb force).1 = .ok pkgs →
      (fetch_all_packages w distro lang cb ccb force).2.1 =
        some (save_cache w.file distro lang (packagesToDicts pkgs) w.now)) ∧
    (∀ err, (fetch_all_packages w distro lang cb ccb force).1 = .error err →
      (fetch_all_packages w distro lang cb ccb force).2.1 = w.file) := by
  have heq : fetch_all_packages w distro lang cb ccb force =
      fetchFresh w distro lang cb := by
    cases force with
    | true => simp [fetch_all_packages]
    | false =>
      rcases hfresh with hf | hn
      · exact absurd hf (by simp)
      · simp [fetch_all_packages, hn]
  rw [heq]
  unfold fetchFresh
  rcases hr : request_with_retry (w.net (get_lang_url distro lang 300 0))
      (get_lang_url distro lang 300 0) 4 with ⟨o, evs0⟩
  simp only [hr]
  cases o with
  | error err => exact ⟨fun pkgs h => by simp at h, fun e h => by simp⟩
  | ok resp =>
    cases hp : parse_page resp.html with
    | error err =>
      exact ⟨fun pkgs h => by simp [hp] at h, fun e h => by simp [hp]⟩
    | ok pkgs =>
      cases hpl : (pageLoop w distro lang cb (get_total_count resp.html)
          pkgs 300).1 with
      | error err =>
        exact ⟨fun ps h => by simp [hp, hpl] at h,
               fun e h => by simp [hp, hpl]⟩
      | ok allPkgs =>
        refine ⟨fun ps h => ?_, fun e h => by simp [hp, hpl] at h⟩
        simp only [hp, hpl] at h ⊢
        have : allPkgs = ps := by
          simpa using h
        rw [this]

/-- Witness for C7: a forced fetch against an empty server succeeds
with an empty record list and saves it to the (previously absent)
cache document. -/
theorem c7_persist_witness :
    (fetch_all_packages ⟨none, 1000, netEmpty⟩ "noble" "sv"
        true true true).2.1 =
      some (save_cache none "noble" "sv" (packagesToDicts []) 1000) := by
  have hok : (fetch_all_packages ⟨none, 1000, netEmpty⟩ "noble" "sv"
      true true true).1 = .ok [] := by
    simp [fetch_all_packages, fetchFresh, request_with_retry, retryAux,
      netEmpty, raisesForStatus, parse_page, get_total_count, pageLoop,
      findOfNumber, findOfAux]
  exact (c7_persist ⟨none, 1000, netEmpty⟩ "noble" "sv" true true true
    (Or.inl rfl)).1 [] hok

/-! ### Claim C3 — pagination -/

/-- The offsets visited by the `while start < total` loop from a given
start, stepping by the fixed batch size 300. -/
def offsetsFrom (total start : ℕ) : List ℕ :=
  if start < total then start :: offsetsFrom total (start + 300) else []
termination_by total - start

/-- All fetched offsets: the unconditional first page at offset 0,
then the loop's offsets. -/
def pageStarts (total : ℕ) : List ℕ :=
  0 :: offsetsFrom total 300

/-- Cumulative loaded counts reported by the progress callback, one per
page, starting from `acc` already-loaded records. -/
def cumLoads (pages : List (List PackageStats)) (acc : ℕ) : List ℕ :=
  match pages with
  | [] => []
  | l :: rest => (acc + l.length) :: cumLoads rest (acc + l.length)

/-- The while loop's event trace under an always-successful server:
per page a sleep, the page GET, and a progress callback with the
cumulative count. -/
def loopEvents (d l : String) (recs : String → List PackageStats)
    (total : ℕ) : List ℕ → ℕ → List Event
  | [], _ => []
  | o :: rest, accLen =>
    Event.sleep REQUEST_DELAY ::
    Event.httpGet (get_lang_url d l 300 o) ::
    Event.progress (accLen + (recs (get_lang_url d l 300 o)).length) total ::
    loopEvents d l recs total rest
      (accLen + (recs (get_lang_url d l 300 o)).length)

/-- A first response with status 200 is returned at once: one GET, no
sleeps. -/
lemma retry_first_ok (get : ℕ → Response) (url : String)
    (h : (get 0).status = 200) :
    request_with_retry get url 4 = (.ok (get 0), [Event.httpGet url]) := by
  rw [request_with_retry, show (4 : ℕ) = 3 + 1 from rfl, retryAux]
  simp [h, raisesForStatus]

/-- Full characterization of the page loop under an always-successful
server: it returns the concatenation, in fetch order, of the records of
the pages at the loop's offsets, with the loop's event trace. -/
lemma pageLoop_spec (w : World) (d l : String) (total : ℕ)
    (recs : String → List PackageStats)
    (hstat : ∀ url, (w.net url 0).status = 200)
    (hparse : ∀ url, parse_page (w.net url 0).html = .ok (recs url)) :
    ∀ start acc,
      pageLoop w d l true total acc start =
        (.ok (acc ++ (offsetsFrom total start).flatMap
            (fun o => recs (get_lang_url d l 300 o))),
         loopEvents d l recs total (offsetsFrom total start) acc.length) := by
  refine nat_step_induction total 300 (by omega)
    (fun start => ∀ acc,
      pageLoop w d l true total acc start =
        (.ok (acc ++ (offsetsFrom total start).flatMap
            (fun o => recs (get_lang_url d l 300 o))),
         loopEvents d l recs total (offsetsFrom total start) acc.length)) ?_
  intro s ih acc
  by_cases hs : s < total
  · rw [pageLoop, dif_pos hs, offsetsFrom, if_pos hs]
    have hr := retry_first_ok (w.net (get_lang_url d l 300 s))
      (get_lang_url d l 300 s) (hstat _)
    simp only [hr, hparse (get_lang_url d l 300 s),
      ih hs (acc ++ recs (get_lang_url d l 300 s))]
    simp [loopEvents, List.length_append]
  · rw [pageLoop, dif_neg hs, offsetsFrom, if_neg hs]
    simp [loopEvents]

/-- Request URLs of a loop trace: the page URL of each offset. -/
lemma fetchUrls_loopEvents (d l : String)
    (recs : String → List PackageStats) (total : ℕ) :
    ∀ os n, fetchUrls (loopEvents d l recs total os n) =
      os.map (fun o => get_lang_url d l 300 o) := by
  intro os
  induction os with
  | nil => intro n; rfl
  | cons o rest ih =>
    intro n
    have hrec := ih (n + (recs (get_lang_url d l 300 o)).length)
    simp only [fetchUrls] at hrec ⊢
    simp [loopEvents, httpGetUrl?, hrec]

/-- Progress counts of a loop trace: the cumulative page sizes. -/
lemma progressLoads_loopEvents (d l : String)
    (recs : String → List PackageStats) (total : ℕ) :
    ∀ os n, progressLoads (loopEvents d l recs total os n) =
      cumLoads (os.map (fun o => recs (get_lang_url d l 300 o))) n := by
  intro os
  induction os with
  | nil => intro n; rfl
  | cons o rest ih =>
    intro n
    have hrec := ih (n + (recs (get_lang_url d l 300 o)).length)
    simp only [progressLoads] at hrec ⊢
    simp [loopEvents, progressLoaded?, cumLoads, hrec]

/-- One progress invocation per page. -/
lemma cumLoads_length (ps : List (List PackageStats)) :
    ∀ n, (cumLoads ps n).length = ps.length := by
  induction ps with
  | nil => intro n; rfl
  | cons l rest ih => intro n; simp [cumLoads, ih]

/-- Cumulative loaded counts never decrease. -/
lemma cumLoads_chain (ps : List (List PackageStats)) :
    ∀ n, (cumLoads ps n).Chain' (· ≤ ·) := by
  induction ps with
  | nil => intro n; simp [cumLoads]
  | cons l rest ih =>
    intro n
    cases rest with
    | nil => simp [cumLoads]
    | cons l₂ rest₂ =>
      rw [cumLoads, cumLoads, List.chain'_cons]
      refine ⟨by omega, ?_⟩
      rw [← cumLoads]
      exact ih (n + l.length)

/-- C3: against a server whose every page request succeeds at the first
attempt and parses, the pagination of `fetch_all_packages` terminates
after fetching exactly the pages at offsets `0, 300, 600, …` (those
`< total`, in order; exactly one page when `total` is 0 or
unparseable), returns the concatenation of the page records in fetch
order, and invokes the progress callback exactly once per page with
monotonically non-decreasing loaded counts. -/
theorem c3_pagination (w : World) (distro lang : String) (total : ℕ)
    (recs : String → List PackageStats)
    (hstat : ∀ url, (w.net url 0).status = 200)
    (hparse : ∀ url, parse_page (w.net url 0).html = .ok (recs url))
    (htotal : get_total_count
      (w.net (get_lang_url distro lang 300 0) 0).html = total) :
    (fetchFresh w distro lang true).1 =
      .ok ((pageStarts total).flatMap
        (fun o => recs (get_lang_url distro lang 300 o))) ∧
    fetchUrls (fetchFresh w distro lang true).2.2 =
      (pageStarts total).map (fun o => get_lang_url distro lang 300 o) ∧
    progressLoads (fetchFresh w distro lang true).2.2 =
      cumLoads ((pageStarts total).map
        (fun o => recs (get_lang_url distro lang 300 o))) 0 ∧
    (progressLoads (fetchFresh w distro lang true).2.2).length =
      (pageStarts total).length ∧
    (progressLoads (fetchFresh w distro lang true).2.2).Chain' (· ≤ ·) ∧
    pageStarts 0 = [0] := by
  have hr := retry_first_ok (w.net (get_lang_url distro lang 300 0))
    (get_lang_url distro lang 300 0) (hstat _)
  have hpl := pageLoop_spec w distro lang total recs hstat hparse 300
    (recs (get_lang_url distro lang 300 0))
  have hff : fetchFresh w distro lang true =
      (.ok ((pageStarts total).flatMap
        (fun o => recs (get_lang_url distro lang 300 o))),
       some (save_cache w.file distro lang
         (packagesToDicts ((pageStarts total).flatMap
           (fun o => recs (get_lang_url distro lang 300 o)))) w.now),
       Event.httpGet (get_lang_url distro lang 300 0) ::
       Event.progress (recs (get_lang_url distro lang 300 0)).length total ::
       loopEvents distro lang recs total (offsetsFrom total 300)
         (recs (get_lang_url distro lang 300 0)).length) := by
    unfold fetchFresh
    simp only [hr, hparse (get_lang_url distro lang 300 0), htotal, hpl]
    simp [pageStarts]
  have hu := fetchUrls_loopEvents distro lang recs total
    (offsetsFrom total 300) (recs (get_lang_url distro lang 300 0)).length
  have hp2 := progressLoads_loopEvents distro lang recs total
    (offsetsFrom total 300) (recs (get_lang_url distro lang 300 0)).length
  have h1 : progressLoads (Event.httpGet (get_lang_url distro lang 300 0) ::
      Event.progress (recs (get_lang_url distro lang 300 0)).length total ::
      loopEvents distro lang recs total (offsetsFrom total 300)
        (recs (get_lang_url distro lang 300 0)).length) =
      cumLoads ((recs (get_lang_url distro lang 300 0)) ::
        (offsetsFrom total 300).map
          (fun o => recs (get_lang_url distro lang 300 o))) 0 := by
    simp only [progressLoads] at hp2 ⊢
    simp [progressLoaded?, cumLoads, hp2]
  refine ⟨by rw [hff], ?_, ?_, ?_, ?_, by simp [pageStarts, offsetsFrom]⟩
  · rw [hff]
    simp only [pageStarts, List.map_cons]
    simp only [fetchUrls] at hu ⊢
    simp [httpGetUrl?, hu]
  · rw [hff]
    simp only [pageStarts, List.map_cons]
    exact h1.trans (by simp [cumLoads])
  · rw [hff, h1]
    simp only [pageStarts, List.map_cons, List.length_cons]
    rw [cumLoads_length]
    simp
  · rw [hff, h1]
    exact cumLoads_chain _ 0

/-- Witness for C3: a server reporting `total = 650` with one record
per page yields exactly 3 page fetches at offsets 0, 300, 600 and 3
progress invocations with loaded counts 1, 2, 3. -/
theorem c3_pagination_witness :
    (fetchFresh ⟨none, 0, net650⟩ "noble" "sv" true).1 =
      .ok [goodPkg "apt" 40 3 1 2 100, goodPkg "apt" 40 3 1 2 100,
           goodPkg "apt" 40 3 1 2 100] ∧
    fetchUrls (fetchFresh ⟨none, 0, net650⟩ "noble" "sv" true).2.2 =
      [get_lang_url "noble" "sv" 300 0, get_lang_url "noble" "sv" 300 300,
       get_lang_url "noble" "sv" 300 600] ∧
    progressLoads (fetchFresh ⟨none, 0, net650⟩ "noble" "sv" true).2.2 =
      [1, 2, 3] := by
  have hp : parse_page (⟨some [goodRow "apt" "40" "3" "1" "2" "100"],
      some "1 → 300 of 650 results"⟩ : Html) =
      .ok [goodPkg "apt" 40 3 1 2 100] := by decide
  have h := c3_pagination ⟨none, 0, net650⟩ "noble" "sv" 650
    (fun _ => [goodPkg "apt" 40 3 1 2 100])
    (fun _ => rfl) (fun _ => hp) (by decide)
  refine ⟨h.1.trans ?_, h.2.1.trans ?_, h.2.2.1.trans ?_⟩ <;>
    simp [pageStarts, offsetsFrom, cumLoads]

/-! ### Claim C8 — roll-up statistics -/

/-- A package with no strings but a 99 % sortkey: appears in the
*top*-10 list (which is not filtered by `total > 0`). -/
def c8pkgTop : PackageStats := goodPkg "x" 99 0 0 0 0

/-- A package whose percent sortkey exceeds 100. -/
def c8pkgOver : PackageStats := goodPkg "y" 150 0 0 0 10

/-- A package with a negative total, as an inconsistent page can
produce. -/
def c8pkgNeg : PackageStats := goodPkg "z" 0 0 0 0 (-5)

/-- C8, counterexample: (i) the top-N list is computed over *all*
packages — a `total = 0` package appears in it, contradicting "top-N …
only among packages with total > 0"; (ii) the "at 100 %" count uses
`translated_pct >= 100`, counting a 150 % record; (iii) with
`sum(total) = -5 ≠ 0` the code returns 0, not the claimed quotient. -/
theorem c8_counterexample :
    (top_translated [c8pkgTop] = [c8pkgTop] ∧ c8pkgTop.total = 0) ∧
    (fully_translated [c8pkgOver] = 1 ∧ c8pkgOver.translated_pct ≠ 100) ∧
    (overall_pct [c8pkgNeg] = 0 ∧
      ¬((total_translated [c8pkgNeg] : ℚ) /
          (total_strings [c8pkgNeg] : ℚ) * 100 = 0)) := by
  refine ⟨⟨by decide, by decide⟩, ⟨by decide, by decide⟩, ⟨by decide, ?_⟩⟩
  norm_num [total_translated, total_strings, c8pkgNeg, goodPkg,
    PackageStats.translated]

/-- C8 (amended): the roll-up computes
`overallPercent = sum(translated)/sum(total)*100` whenever
`sum(total) > 0` and 0 when `sum(total) = 0` (also 0 for a negative
sum); it counts packages with `translated_pct ≥ 100` and with
`translated_pct = 0`; the bottom-N is taken, sorted ascending by
percent, only among packages with `total > 0`, while the top-N is
taken, sorted descending by percent, over *all* packages; the example
totals give 200/3 ≈ 66.7 %. -/
theorem c8_rollup (pkgs : List PackageStats) :
    (total_strings pkgs = 0 → overall_pct pkgs = 0) ∧
    (0 < total_strings pkgs →
      overall_pct pkgs =
        (total_translated pkgs : ℚ) / (total_strings pkgs : ℚ) * 100) ∧
    fully_translated pkgs =
      (pkgs.filter (fun p => decide (100 ≤ p.translated_pct))).length ∧
    zero_pct pkgs =
      (pkgs.filter (fun p => decide (p.translated_pct = 0))).length ∧
    (∀ p ∈ least_translated pkgs, 0 < p.total ∧ p ∈ pkgs) ∧
    (∀ p ∈ top_translated pkgs, p ∈ pkgs) ∧
    (least_translated pkgs).Pairwise
      (fun a b => a.translated_pct ≤ b.translated_pct) ∧
    (top_translated pkgs).Pairwise
      (fun a b => b.translated_pct ≤ a.translated_pct) ∧
    overall_pct [goodPkg "a" 50 50 0 0 100, goodPkg "b" 100 0 0 0 50] =
      200 / 3 := by
  haveI hta : IsTotal PackageStats
      (fun a b => a.translated_pct ≤ b.translated_pct) :=
    ⟨fun a b => le_total _ _⟩
  haveI htra : IsTrans PackageStats
      (fun a b => a.translated_pct ≤ b.translated_pct) :=
    ⟨fun _ _ _ hab hbc => le_trans hab hbc⟩
  haveI htd : IsTotal PackageStats
      (fun a b => b.translated_pct ≤ a.translated_pct) :=
    ⟨fun a b => le_total _ _⟩
  haveI htrd : IsTrans PackageStats
      (fun a b => b.translated_pct ≤ a.translated_pct) :=
    ⟨fun _ _ _ hab hbc => le_trans hbc hab⟩
  refine ⟨?_, ?_, ?_, ?_, ?_, ?_, ?_, ?_, ?_⟩
  · intro h
    simp [overall_pct, h]
  · intro h
    simp [overall_pct, h]
  · exact List.countP_eq_length_filter _ _
  · exact List.countP_eq_length_filter _ _
  · intro p hp
    have h1 : p ∈ (pkgs.filter (fun p => decide (0 < p.total))).insertionSort
        (fun a b => a.translated_pct ≤ b.translated_pct) :=
      (List.take_sublist _ _).subset hp
    have h2 : p ∈ pkgs.filter (fun p => decide (0 < p.total)) :=
      (List.perm_insertionSort _ _).subset h1
    have h3 := List.mem_filter.mp h2
    exact ⟨of_decide_eq_true h3.2, h3.1⟩
  · intro p hp
    have h1 : p ∈ pkgs.insertionSort
        (fun a b => b.translated_pct ≤ a.translated_pct) :=
      (List.take_sublist _ _).subset hp
    exact (List.perm_insertionSort _ _).subset h1
  · exact List.Pairwise.sublist (List.take_sublist _ _)
      (List.sorted_insertionSort _ _)
  · exact List.Pairwise.sublist (List.take_sublist _ _)
      (List.sorted_insertionSort _ _)
  · norm_num [overall_pct, total_strings, total_translated, goodPkg,
      PackageStats.translated]

/-- Witness for C8: the example list has a positive string total and
its roll-up equals the quotient formula. -/
theorem c8_rollup_witness :
    0 < total_strings [goodPkg "a" 50 50 0 0 100, goodPkg "b" 100 0 0 0 50] ∧
    overall_pct [goodPkg "a" 50 50 0 0 100, goodPkg "b" 100 0 0 0 50] =
      (total_translated [goodPkg "a" 50 50 0 0 100,
        goodPkg "b" 100 0 0 0 50] : ℚ) /
      (total_strings [goodPkg "a" 50 50 0 0 100,
        goodPkg "b" 100 0 0 0 50] : ℚ) * 100 :=
  ⟨by decide,
   (c8_rollup [goodPkg "a" 50 50 0 0 100, goodPkg "b" 100 0 0 0 50]).2.1
     (by decide)⟩

/-! ### Claim C9 — filter and sort as transforms -/

/-- Record whose name sorts last. -/
def c9p1 : PackageStats := goodPkg "zeta" 1 0 0 0 1

/-- Record whose name sorts first. -/
def c9p2 : PackageStats := goodPkg "alpha" 2 0 0 0 2

/-- C9, counterexample: with an empty query, `filtered` aliases
`self.packages` and `filtered.sort(...)` reorders `self.packages`
itself — the input record list's ordering after the call is *not* the
original. -/
theorem c9_counterexample :
    (filter_and_display [c9p1, c9p2] "" .name_asc).1 ≠ [c9p1, c9p2] := by
  decide

/-- C9 (amended): filtering and sorting are functions of the record
list, query and sort key alone, and an empty (post-strip) query is the
identity filter; with a nonempty query the input list is left
unmodified and the view is the filtered list sorted; with an empty
query the sort happens *in place*, so the input list itself is
reordered to the sorted view — a permutation: no record is added,
removed or modified. -/
theorem c9_filter_sort (pkgs : List PackageStats) (rawQuery : String)
    (key : SortKey) :
    (pyStrip (pyLower rawQuery) ≠ "" →
      (filter_and_display pkgs rawQuery key).1 = pkgs ∧
      (filter_and_display pkgs rawQuery key).2 =
        applySort key (pkgs.filter (fun p =>
          strContains (pyLower p.name) (pyStrip (pyLower rawQuery))))) ∧
    (pyStrip (pyLower rawQuery) = "" →
      filter_and_display pkgs rawQuery key =
        (applySort key pkgs, applySort key pkgs)) ∧
    (applySort key pkgs).Perm pkgs := by
  refine ⟨?_, ?_, ?_⟩
  · intro h
    simp [filter_and_display, h]
  · intro h
    simp [filter_and_display, h]
  · cases key <;> exact List.perm_insertionSort _ _

/-- Witness for C9's amended theorem: a nonempty query leaves the
input ordering alone and yields the filtered, sorted view. -/
theorem c9_filter_sort_witness :
    (filter_and_display [c9p1, c9p2] "Z" .name_asc).1 = [c9p1, c9p2] ∧
    (filter_and_display [c9p1, c9p2] "Z" .name_asc).2 = [c9p1] := by
  have h := (c9_filter_sort [c9p1, c9p2] "Z" .name_asc).1 (by decide)
  exact ⟨h.1, h.2.trans (by decide)⟩

end UbuntuL10n
